import Mathlib

/-!
Verification of the BidForgeAI RAG subsystem against its specification.

The development shallowly embeds the Python code of
`src/utils/document_processor.py` (text chunking) and
`src/utils/rag_service.py` (indexing, search, conflict detection).
Python strings are modelled as `List Char`; Python slicing, `str.rfind`,
`str.strip` are embedded below with Python's semantics (including
negative slice indices).  The `while` loop of `chunk_text` is embedded
as a fuel-indexed loop so that non-termination of the source loop is
expressible as `none` for every fuel.
-/

namespace BidForge

/-! ### Python string primitives -/

/-- Python `str.isspace` characters relevant to `str.strip()`. -/
def isPySpace (c : Char) : Bool :=
  c == ' ' || c == '\n' || c == '\t' || c == '\r' || c == '\x0b' || c == '\x0c'

/-- Python `str.strip()`: remove leading and trailing whitespace. -/
def pyStrip (s : List Char) : List Char :=
  ((s.dropWhile isPySpace).reverse.dropWhile isPySpace).reverse

/-- Resolve one Python slice endpoint against a string of length `n`:
negative indices count from the end (clamped at 0), positive ones are
clamped at `n`. -/
def sliceIdx (n : Nat) (i : Int) : Nat :=
  if i < 0 then ((n : Int) + i).toNat else min n i.toNat

/-- Python slice `s[a:b]`. -/
def pySlice (s : List Char) (a b : Int) : List Char :=
  (s.take (sliceIdx s.length b)).drop (sliceIdx s.length a)

/-- Python `s[i:i+len(sub)] == sub`: `sub` occurs in `s` at position `i`. -/
def occursAt (s sub : List Char) (i : Nat) : Bool :=
  (s.drop i).take sub.length == sub

/-- Scan positions `n, n-1, ..., 0` for the last occurrence of `sub`. -/
def rfindAux (s sub : List Char) : Nat → Int
  | 0 => if occursAt s sub 0 then 0 else -1
  | i + 1 => if occursAt s sub (i + 1) then ((i : Int) + 1) else rfindAux s sub i

/-- Python `s.rfind(sub)`: highest index where `sub` occurs, else `-1`. -/
def rfind (s sub : List Char) : Int :=
  rfindAux s sub s.length

/-! ### `DocumentProcessor.chunk_text` (document_processor.py lines 263-305) -/

/-- The sentence separators tried, in source order:
`['. ', '.\n', '! ', '?\n']`. -/
def seps : List (List Char) :=
  [['.', ' '], ['.', '\n'], ['!', ' '], ['?', '\n']]

/-- The source condition `last_sep > chunk_size * 0.5`.  `last_sep` is an
integer and `chunk_size * 0.5` is exact in floating point, so the test is
equivalent to `2 * last_sep > chunk_size`. -/
def qualifies (w : List Char) (cs : Nat) (sep : List Char) : Bool :=
  decide ((cs : Int) < 2 * rfind w sep)

/-- The `for sep in [...]` loop with `break`: the first separator (in list
order) whose last occurrence in the window passes the 50% test yields the
new chunk end offset `last_sep + len(sep)`. -/
def findBreak (w : List Char) (cs : Nat) : List (List Char) → Option (Int × Nat)
  | [] => none
  | sep :: rest =>
    if qualifies w cs sep then some (rfind w sep, sep.length) else findBreak w cs rest

/-- The chunk end computed for scan position `start`: `end = start + chunk_size`,
adjusted to a sentence boundary when `end < len(text)` and a separator
qualifies. -/
def endOf (t : List Char) (cs : Nat) (start : Int) : Int :=
  if start + (cs : Int) < (t.length : Int) then
    match findBreak (pySlice t start (start + cs)) cs seps with
    | some (ls, sl) => start + ls + sl
    | none => start + cs
  else start + cs

/-- The update `start = end - overlap if end < len(text) else end`,
using the (possibly sentence-adjusted) `end`. -/
def nextStart (t : List Char) (cs ov : Nat) (start : Int) : Int :=
  if endOf t cs start < (t.length : Int) then endOf t cs start - ov
  else endOf t cs start

/-- The chunk produced at scan position `start`: `text[start:end].strip()`. -/
def chunkAt (t : List Char) (cs : Nat) (start : Int) : List Char :=
  pyStrip (pySlice t start (endOf t cs start))

/-- The `while start < len(text)` loop, indexed by fuel.  `none` means the
fuel ran out; the source loop terminates on an input iff some fuel returns
`some`. -/
def chunkLoop (t : List Char) (cs ov : Nat) :
    Nat → Int → List (List Char) → Option (List (List Char))
  | 0, start, acc =>
    if (t.length : Int) ≤ start then some acc else none
  | fuel + 1, start, acc =>
    if (t.length : Int) ≤ start then some acc
    else
      chunkLoop t cs ov fuel (nextStart t cs ov start)
        (if chunkAt t cs start = [] then acc else acc ++ [chunkAt t cs start])

/-- `DocumentProcessor.chunk_text(text, chunk_size, overlap)`. -/
def chunk_text (t : List Char) (cs ov : Nat) (fuel : Nat) :
    Option (List (List Char)) :=
  if t.length ≤ cs then some [t] else chunkLoop t cs ov fuel 0 []

/-! ### Concrete texts used in counterexamples and witnesses -/

/-- 20 characters; a sentence break at index 6 within the first window. -/
def exT : List Char := "aaaaaa. aaaaaaaaaaaa".data

/-- 11 whitespace characters. -/
def ws11 : List Char := "           ".data

/-- 10 characters with interior double blank. -/
def abT : List Char := "abcd  efgh".data

/-- 15 characters; the first window contains both a qualifying `'. '`
(at index 6) and a qualifying `'! '` (at index 8). -/
def t4 : List Char := "aaaaaa. ! zzzzz".data

/-! ### Lemmas about `chunk_text` -/

/-- Every separator tried by the source has length 2. -/
lemma seps_length : ∀ sep ∈ seps, sep.length = 2 := by decide

/-- Every separator tried by the source is nonempty. -/
lemma seps_ne_nil : ∀ sep ∈ seps, sep ≠ [] := by decide

/-- If the separator scan fires, the returned offset comes from a listed
separator whose last occurrence passes the strict 50% test. -/
lemma findBreak_some {w : List Char} {cs : Nat} {l : List (List Char)}
    {p : Int × Nat} (h : findBreak w cs l = some p) :
    ∃ sep ∈ l, p.1 = rfind w sep ∧ p.2 = sep.length ∧ (cs : Int) < 2 * rfind w sep := by
  induction l with
  | nil => simp [findBreak] at h
  | cons sep rest ih =>
    by_cases hq : qualifies w cs sep
    · rw [findBreak, if_pos hq] at h
      injection h with h2
      subst h2
      exact ⟨sep, List.mem_cons_self _ _, rfl, rfl, of_decide_eq_true hq⟩
    · rw [findBreak, if_neg hq] at h
      obtain ⟨s, hs, h1, h2, h3⟩ := ih h
      exact ⟨s, List.mem_cons_of_mem _ hs, h1, h2, h3⟩

/-- Whatever the separator scan decides, the chunk end lies at least
`min(chunk_size, chunk_size/2 + 3)` beyond the scan position. -/
lemma endOf_lower (t : List Char) (cs : Nat) (start : Int) :
    start + ((min cs (cs / 2 + 3) : Nat) : Int) ≤ endOf t cs start := by
  unfold endOf
  by_cases hend : start + (cs : Int) < (t.length : Int)
  · rw [if_pos hend]
    rcases hfb : findBreak (pySlice t start (start + cs)) cs seps with _ | ⟨ls, sl⟩
    · simp only [hfb]
      push_cast
      omega
    · obtain ⟨sep, hmem, hp1, hp2, hq⟩ := findBreak_some hfb
      have hls : ls = rfind (pySlice t start (start + cs)) sep := hp1
      have hsl : sl = sep.length := hp2
      have h2 : sep.length = 2 := seps_length sep hmem
      simp only [hfb]
      push_cast
      omega
  · rw [if_neg hend]
    push_cast
    omega

/-- Progress: with `overlap < min(chunk_size, chunk_size/2 + 3)` the scan
position strictly increases on every iteration of the loop. -/
lemma nextStart_progress {t : List Char} {cs ov : Nat}
    (hov : ov < min cs (cs / 2 + 3)) {start : Int}
    (h1 : start < (t.length : Int)) : start < nextStart t cs ov start := by
  have hlow := endOf_lower t cs start
  unfold nextStart
  split <;> push_cast at hlow ⊢ <;> omega

/-- Termination of the loop under the progress condition: fuel
`len(text) - start` suffices. -/
lemma chunkLoop_terminates (t : List Char) {cs ov : Nat}
    (hov : ov < min cs (cs / 2 + 3)) :
    ∀ (fuel : Nat) (start : Int) acc, (t.length : Int) ≤ start + (fuel : Int) →
      ∃ r, chunkLoop t cs ov fuel start acc = some r := by
  intro fuel
  induction fuel with
  | zero =>
    intro start acc h
    refine ⟨acc, ?_⟩
    rw [chunkLoop, if_pos (by omega)]
  | succ n ih =>
    intro start acc h
    by_cases hg : (t.length : Int) ≤ start
    · exact ⟨acc, by rw [chunkLoop, if_pos hg]⟩
    · have hlt : start < (t.length : Int) := not_le.mp hg
      have hp := nextStart_progress hov hlt
      obtain ⟨r, hr⟩ := ih (nextStart t cs ov start)
        (if chunkAt t cs start = [] then acc else acc ++ [chunkAt t cs start])
        (by push_cast at h ⊢; omega)
      exact ⟨r, by rw [chunkLoop, if_neg hg]; exact hr⟩

/-- `chunk_text` with fuel `len(text) + 1` returns a result whenever
`overlap < min(chunk_size, chunk_size/2 + 3)`. -/
lemma chunk_text_total (t : List Char) {cs ov : Nat}
    (hov : ov < min cs (cs / 2 + 3)) :
    ∃ r, chunk_text t cs ov (t.length + 1) = some r := by
  by_cases h : t.length ≤ cs
  · exact ⟨[t], by rw [chunk_text, if_pos h]⟩
  · obtain ⟨r, hr⟩ := chunkLoop_terminates t hov (t.length + 1) 0 [] (by push_cast; omega)
    exact ⟨r, by rw [chunk_text, if_neg h]; exact hr⟩

/-- On `exT` with `chunk_size = 10`, `overlap = 9` the loop cycles between
scan positions `0` and `-1` and never terminates: `none` for every fuel. -/
lemma chunkLoop_exT_diverges :
    ∀ fuel, (∀ acc, chunkLoop exT 10 9 fuel 0 acc = none)
      ∧ (∀ acc, chunkLoop exT 10 9 fuel (-1) acc = none) := by
  intro fuel
  induction fuel with
  | zero =>
    constructor <;> intro acc <;> rw [chunkLoop, if_neg (by decide)]
  | succ n ih =>
    constructor <;> intro acc
    · rw [chunkLoop, if_neg (by decide),
        show nextStart exT 10 9 0 = -1 from by decide]
      exact ih.2 _
    · rw [chunkLoop, if_neg (by decide),
        show nextStart exT 10 9 (-1) = 0 from by decide]
      exact ih.1 _

/-- C6: a text no longer than `chunk_size` is returned as the single chunk
`[t]`, for every overlap. -/
theorem chunk_text_short_text (t : List Char) (cs ov fuel : Nat)
    (h : t.length ≤ cs) : chunk_text t cs ov fuel = some [t] := by
  rw [chunk_text, if_pos h]

/-- Witness for C6 at `t = "hello"`, `chunk_size = 10`, `overlap = 3`. -/
theorem chunk_text_short_text_witness :
    ("hello".data.length ≤ 10)
      ∧ chunk_text "hello".data 10 3 0 = some ["hello".data] :=
  ⟨by decide, chunk_text_short_text "hello".data 10 3 0 (by decide)⟩

/-- Counterexample to C2 as stated: with `chunk_size = 10` and
`overlap = 9 < chunk_size`, on `exT` the very first iteration (scan position
`0 < len(text)`) moves `start` to `-1` — the scan position does not strictly
increase — and the loop never terminates (shown here for fuel `10^6`; the
lemma `chunkLoop_exT_diverges` above gives every fuel). -/
theorem chunk_nontermination_cex :
    (9 : Nat) < 10 ∧ (0 : Int) < (exT.length : Int)
      ∧ nextStart exT 10 9 0 = -1 ∧ ¬ (0 : Int) < nextStart exT 10 9 0
      ∧ chunk_text exT 10 9 1000000 = none := by
  refine ⟨by decide, by decide, by decide, by decide, ?_⟩
  rw [chunk_text, if_neg (by decide)]
  exact (chunkLoop_exT_diverges 1000000).1 []

/-- C2 (corrected): the loop's scan position strictly increases each
iteration, and `chunk_text` terminates, provided
`overlap < min(chunk_size, chunk_size/2 + 3)` (integer division); the
original bound `overlap < chunk_size` is not sufficient. -/
theorem chunk_text_terminates_small_overlap (t : List Char) (cs ov : Nat)
    (hov : ov < min cs (cs / 2 + 3)) :
    (∀ start : Int, start < (t.length : Int) → start < nextStart t cs ov start)
      ∧ ∃ r, chunk_text t cs ov (t.length + 1) = some r :=
  ⟨fun _ h => nextStart_progress hov h, chunk_text_total t hov⟩

/-- Witness for the corrected C2 at `exT`, `chunk_size = 10`, `overlap = 2`. -/
theorem chunk_text_terminates_small_overlap_witness :
    (2 < min 10 (10 / 2 + 3))
      ∧ ((∀ start : Int, start < (exT.length : Int) → start < nextStart exT 10 2 start)
        ∧ ∃ r, chunk_text exT 10 2 (exT.length + 1) = some r) :=
  ⟨by decide, chunk_text_terminates_small_overlap exT 10 2 (by decide)⟩

/-! ### Correctness of the embedded `str.rfind` -/

/-- An occurrence of a nonempty `sub` at `i` fits inside `s`. -/
lemma occursAt_length {s sub : List Char} {i : Nat} (hsub : sub ≠ [])
    (h : occursAt s sub i = true) : i + sub.length ≤ s.length := by
  have he : (s.drop i).take sub.length = sub := eq_of_beq h
  have hl := congrArg List.length he
  simp only [List.length_take, List.length_drop] at hl
  have : 0 < sub.length := List.length_pos.mpr hsub
  omega

/-- A nonnegative `rfindAux` result is a genuine occurrence, bounded by the
scan start. -/
lemma rfindAux_nonneg_occurs {s sub : List Char} :
    ∀ n, 0 ≤ rfindAux s sub n →
      occursAt s sub (rfindAux s sub n).toNat = true ∧ rfindAux s sub n ≤ (n : Int) := by
  intro n
  induction n with
  | zero =>
    rw [rfindAux]
    by_cases h : occursAt s sub 0
    · rw [if_pos h]; exact fun _ => ⟨h, le_refl 0⟩
    · rw [if_neg h]; omega
  | succ n ih =>
    rw [rfindAux]
    by_cases h : occursAt s sub (n + 1)
    · rw [if_pos h]
      intro _
      refine ⟨?_, by push_cast; omega⟩
      have : ((n : Int) + 1).toNat = n + 1 := by omega
      rw [this]; exact h
    · rw [if_neg h]
      intro hnn
      obtain ⟨h1, h2⟩ := ih hnn
      exact ⟨h1, by push_cast; omega⟩

/-- `rfindAux` finds the *last* occurrence at or below the scan start. -/
lemma rfindAux_maximal {s sub : List Char} :
    ∀ n j, j ≤ n → rfindAux s sub n < (j : Int) → occursAt s sub j = false := by
  intro n
  induction n with
  | zero =>
    intro j hj hlt
    interval_cases j
    rw [rfindAux] at hlt
    by_cases h : occursAt s sub 0
    · rw [if_pos h] at hlt; omega
    · exact Bool.eq_false_iff.mpr h
  | succ n ih =>
    intro j hj hlt
    rw [rfindAux] at hlt
    by_cases h : occursAt s sub (n + 1)
    · rw [if_pos h] at hlt; omega
    · rw [if_neg h] at hlt
      rcases Nat.lt_or_ge j (n + 1) with hj' | hj'
      · exact ih j (by omega) hlt
      · have : j = n + 1 := by omega
        subst this
        exact Bool.eq_false_iff.mpr h

/-- `rfind` returns the last occurrence: every strictly later position is
not an occurrence. -/
lemma rfind_last {s sub : List Char} (hsub : sub ≠ []) :
    ∀ j : Nat, rfind s sub < (j : Int) → occursAt s sub j = false := by
  intro j hj
  rcases le_or_lt j s.length with hjl | hjl
  · exact rfindAux_maximal s.length j hjl hj
  · by_contra h
    rw [Bool.not_eq_false] at h
    have := occursAt_length hsub h
    have : 0 < sub.length := List.length_pos.mpr hsub
    omega

/-- A nonnegative `rfind` result is a genuine occurrence. -/
lemma rfind_occurs {s sub : List Char} (h : 0 ≤ rfind s sub) :
    occursAt s sub (rfind s sub).toNat = true :=
  (rfindAux_nonneg_occurs s.length h).1

/-- The separator scan equals `find?` over the separator list. -/
lemma findBreak_eq_find? (w : List Char) (cs : Nat) :
    ∀ l, findBreak w cs l
      = (l.find? (qualifies w cs)).map (fun sep => (rfind w sep, sep.length)) := by
  intro l
  induction l with
  | nil => rfl
  | cons sep rest ih =>
    by_cases hq : qualifies w cs sep
    · rw [findBreak, if_pos hq, List.find?_cons_of_pos _ hq, Option.map_some']
    · rw [findBreak, if_neg hq, List.find?_cons_of_neg _ (by simpa using hq), ih]

/-- C4 (corrected): in each non-final window the code tries the four
terminators in the fixed source order `'. '`, `'.\n'`, `'! '`, `'?\n'` and
cuts right after the **last occurrence of the first terminator in that
order** whose last occurrence lies strictly past 50% of `chunk_size`; only
if no terminator qualifies is the chunk cut at the hard boundary
`start + chunk_size`.  (The claim's "nearest terminator among the four" is
refuted by `chunk_boundary_nearest_cex`.) -/
theorem chunk_boundary_rule (t : List Char) (cs : Nat) (start : Int)
    (hnf : start + (cs : Int) < (t.length : Int)) :
    (seps.find? (qualifies (pySlice t start (start + cs)) cs) = none →
        endOf t cs start = start + cs)
      ∧ ∀ sep, seps.find? (qualifies (pySlice t start (start + cs)) cs) = some sep →
          endOf t cs start
              = start + rfind (pySlice t start (start + cs)) sep + sep.length
            ∧ (cs : Int) < 2 * rfind (pySlice t start (start + cs)) sep
            ∧ occursAt (pySlice t start (start + cs)) sep
                (rfind (pySlice t start (start + cs)) sep).toNat = true
            ∧ ∀ j : Nat, rfind (pySlice t start (start + cs)) sep < (j : Int) →
                occursAt (pySlice t start (start + cs)) sep j = false := by
  constructor
  · intro hnone
    rw [endOf, if_pos hnf, findBreak_eq_find?, hnone, Option.map_none']
  · intro sep hsome
    have hq : qualifies (pySlice t start (start + cs)) cs sep = true :=
      List.find?_some hsome
    have hqlt : (cs : Int) < 2 * rfind (pySlice t start (start + cs)) sep :=
      of_decide_eq_true hq
    have hmem : sep ∈ seps := List.mem_of_find?_eq_some hsome
    have hne : sep ≠ [] := seps_ne_nil sep hmem
    refine ⟨?_, hqlt, rfind_occurs (by omega), rfind_last hne⟩
    rw [endOf, if_pos hnf, findBreak_eq_find?, hsome, Option.map_some']

/-- Witness for the corrected C4: the first window of `t4`
(`start = 0`, `chunk_size = 10`, window `"aaaaaa. ! "`). -/
theorem chunk_boundary_rule_witness :
    ((0 : Int) + (10 : Nat) < (t4.length : Int))
      ∧ ((seps.find? (qualifies (pySlice t4 0 (0 + (10 : Nat))) 10) = none →
            endOf t4 10 0 = 0 + (10 : Nat))
        ∧ ∀ sep, seps.find? (qualifies (pySlice t4 0 (0 + (10 : Nat))) 10) = some sep →
            endOf t4 10 0
                = 0 + rfind (pySlice t4 0 (0 + (10 : Nat))) sep + sep.length
              ∧ ((10 : Nat) : Int) < 2 * rfind (pySlice t4 0 (0 + (10 : Nat))) sep
              ∧ occursAt (pySlice t4 0 (0 + (10 : Nat))) sep
                  (rfind (pySlice t4 0 (0 + (10 : Nat))) sep).toNat = true
              ∧ ∀ j : Nat, rfind (pySlice t4 0 (0 + (10 : Nat))) sep < (j : Int) →
                  occursAt (pySlice t4 0 (0 + (10 : Nat))) sep j = false) :=
  ⟨by decide, chunk_boundary_rule t4 10 0 (by decide)⟩

/-- Modelled from the spec's words, for comparison with the code (claim C4):
the chunk is said to end right after the *nearest* (latest) occurrence of
any of the four terminators whose position is at least 50% of `chunk_size`
into the window, falling back to the hard boundary. -/
def specNearestEnd (t : List Char) (cs : Nat) (start : Int) : Int :=
  match (seps.filterMap (fun sep =>
      if (cs : Int) ≤ 2 * rfind (pySlice t start (start + cs)) sep
      then some (rfind (pySlice t start (start + cs)) sep + sep.length)
      else none)).max? with
  | some m => start + m
  | none => start + cs

/-- Counterexample to C4 as stated: in the first window of `t4`
(`"aaaaaa. ! "`) both `'. '` (at 6) and `'! '` (at 8) qualify; the nearest
terminator is `'! '`, so the claim predicts the cut at 10, but the code
tries `'. '` first and cuts at 8: the emitted first chunk is `"aaaaaa."`,
not the claim's `"aaaaaa. !"`. -/
theorem chunk_boundary_nearest_cex :
    endOf t4 10 0 = 8 ∧ specNearestEnd t4 10 0 = 10
      ∧ chunk_text t4 10 2 16 = some ["aaaaaa.".data, ". ! zzzzz".data]
      ∧ pyStrip (pySlice t4 0 (endOf t4 10 0))
          ≠ pyStrip (pySlice t4 0 (specNearestEnd t4 10 0)) := by
  decide

/-- The window sliced for a nonnegative scan position has at most
`chunk_size` characters. -/
lemma window_length_le (t : List Char) (cs : Nat) (start : Int) (h0 : 0 ≤ start) :
    (pySlice t start (start + cs)).length ≤ cs := by
  rw [pySlice]
  simp only [List.length_drop, List.length_take, sliceIdx]
  rw [if_neg (by omega), if_neg (by omega)]
  omega

/-- The chunk end never exceeds the hard boundary `start + chunk_size`. -/
lemma endOf_upper (t : List Char) (cs : Nat) (start : Int) (h0 : 0 ≤ start) :
    endOf t cs start ≤ start + cs := by
  rw [endOf]
  by_cases hend : start + (cs : Int) < (t.length : Int)
  · rw [if_pos hend]
    rcases hfb : findBreak (pySlice t start (start + cs)) cs seps with _ | ⟨ls, sl⟩
    · simp only [hfb]
      omega
    · obtain ⟨sep, hmem, hp1, hp2, hq⟩ := findBreak_some hfb
      have hls : ls = rfind (pySlice t start (start + cs)) sep := hp1
      have hsl : sl = sep.length := hp2
      have hsep2 : sep.length = 2 := seps_length sep hmem
      have hnn : 0 ≤ rfind (pySlice t start (start + cs)) sep := by omega
      have hfit := occursAt_length (seps_ne_nil sep hmem) (rfind_occurs hnn)
      have hwl := window_length_le t cs start h0
      simp only [hfb]
      omega
  · rw [if_neg hend]

/-! ### The loop's windows (spans) and their overlap structure (claim C3) -/

/-- The same loop as `chunkLoop`, recording each iteration's window
`(start, end)` instead of the stripped chunk. -/
def spanLoop (t : List Char) (cs ov : Nat) :
    Nat → Int → List (Int × Int) → Option (List (Int × Int))
  | 0, start, acc =>
    if (t.length : Int) ≤ start then some acc else none
  | fuel + 1, start, acc =>
    if (t.length : Int) ≤ start then some acc
    else spanLoop t cs ov fuel (nextStart t cs ov start)
      (acc ++ [(start, endOf t cs start)])

/-- The chunks the source emits for a list of windows: each window sliced
from the text, stripped, empty results dropped. -/
def emitChunks (t : List Char) (sp : List (Int × Int)) : List (List Char) :=
  (sp.map (fun p => pyStrip (pySlice t p.1 p.2))).filter (fun c => !c.isEmpty)

lemma spanLoop_append (t : List Char) (cs ov : Nat) :
    ∀ (fuel : Nat) (start : Int) (a b : List (Int × Int)),
      spanLoop t cs ov fuel start (a ++ b)
        = (spanLoop t cs ov fuel start b).map (a ++ ·) := by
  intro fuel
  induction fuel with
  | zero =>
    intro start a b
    by_cases hg : (t.length : Int) ≤ start
    · rw [spanLoop, spanLoop, if_pos hg, if_pos hg, Option.map_some']
    · rw [spanLoop, spanLoop, if_neg hg, if_neg hg, Option.map_none']
  | succ n ih =>
    intro start a b
    by_cases hg : (t.length : Int) ≤ start
    · rw [spanLoop, spanLoop, if_pos hg, if_pos hg, Option.map_some']
    · rw [spanLoop, spanLoop, if_neg hg, if_neg hg, List.append_assoc]
      exact ih _ a _

/-- The chunk loop is the span loop followed by slicing, stripping and
dropping empties. -/
lemma chunkLoop_eq_spanLoop (t : List Char) (cs ov : Nat) :
    ∀ (fuel : Nat) (start : Int) (acc : List (List Char)),
      chunkLoop t cs ov fuel start acc
        = (spanLoop t cs ov fuel start []).map (fun tail => acc ++ emitChunks t tail) := by
  intro fuel
  induction fuel with
  | zero =>
    intro start acc
    by_cases hg : (t.length : Int) ≤ start
    · rw [chunkLoop, spanLoop, if_pos hg, if_pos hg, Option.map_some']
      simp [emitChunks]
    · rw [chunkLoop, spanLoop, if_neg hg, if_neg hg, Option.map_none']
  | succ n ih =>
    intro start acc
    by_cases hg : (t.length : Int) ≤ start
    · rw [chunkLoop, spanLoop, if_pos hg, if_pos hg, Option.map_some']
      simp [emitChunks]
    · rw [chunkLoop, spanLoop, if_neg hg, if_neg hg, ih,
        show ([] ++ [(start, endOf t cs start)] : List (Int × Int))
          = [(start, endOf t cs start)] ++ [] from by simp,
        spanLoop_append, Option.map_map]
      refine congrArg (fun f => Option.map f (spanLoop t cs ov n (nextStart t cs ov start) [])) ?_
      funext tail
      show (if chunkAt t cs start = [] then acc else acc ++ [chunkAt t cs start])
            ++ emitChunks t tail
          = acc ++ emitChunks t ((start, endOf t cs start) :: tail)
      have hhead : emitChunks t ((start, endOf t cs start) :: tail)
          = (if chunkAt t cs start = [] then [] else [chunkAt t cs start])
              ++ emitChunks t tail := by
        rw [emitChunks, List.map_cons, List.filter_cons]
        by_cases hc : chunkAt t cs start = []
        · have hc' : (!(pyStrip (pySlice t start (endOf t cs start))).isEmpty) = false := by
            have : pyStrip (pySlice t start (endOf t cs start)) = [] := hc
            rw [this]; rfl
          rw [hc', if_pos hc]
          simp [emitChunks]
        · have hc' : (!(pyStrip (pySlice t start (endOf t cs start))).isEmpty) = true := by
            have h1 : pyStrip (pySlice t start (endOf t cs start)) ≠ [] := hc
            rcases h : pyStrip (pySlice t start (endOf t cs start)) with _ | ⟨c, cs'⟩
            · exact absurd h h1
            · rfl
          rw [hc', if_neg hc]
          simp [emitChunks, chunkAt]
      rw [hhead]
      by_cases hc : chunkAt t cs start = []
      · rw [if_pos hc, if_pos hc, List.nil_append]
      · rw [if_neg hc, if_neg hc, List.append_assoc]

/-- The windows recorded by the loop, as generated from an initial scan
position: each window starts at the current scan position (which is below
`len(text)`), ends at `endOf`, and the rest follows from `nextStart`. -/
def spansChained (t : List Char) (cs ov : Nat) : Int → List (Int × Int) → Prop
  | _, [] => True
  | s, p :: rest =>
      p.1 = s ∧ s < (t.length : Int) ∧ p.2 = endOf t cs s
        ∧ spansChained t cs ov (nextStart t cs ov s) rest

lemma spanLoop_chained (t : List Char) (cs ov : Nat) :
    ∀ (fuel : Nat) (start : Int) (acc sp : List (Int × Int)),
      spanLoop t cs ov fuel start acc = some sp →
      ∃ tail, sp = acc ++ tail ∧ spansChained t cs ov start tail := by
  intro fuel
  induction fuel with
  | zero =>
    intro start acc sp h
    by_cases hg : (t.length : Int) ≤ start
    · rw [spanLoop, if_pos hg] at h
      injection h with h2
      exact ⟨[], by simp [h2.symm], trivial⟩
    · rw [spanLoop, if_neg hg] at h
      exact absurd h (by simp)
  | succ n ih =>
    intro start acc sp h
    by_cases hg : (t.length : Int) ≤ start
    · rw [spanLoop, if_pos hg] at h
      injection h with h2
      exact ⟨[], by simp [h2.symm], trivial⟩
    · rw [spanLoop, if_neg hg] at h
      obtain ⟨tail, htl, hch⟩ := ih _ _ _ h
      refine ⟨(start, endOf t cs start) :: tail, ?_, ?_⟩
      · rw [htl, List.append_assoc, List.singleton_append]
      · exact ⟨rfl, not_le.mp hg, rfl, hch⟩

/-- Any two adjacent recorded windows satisfy: the earlier one ends below
`len(text)` and the later one starts exactly `overlap` characters before the
earlier one's end. -/
lemma spansChained_adjacent (t : List Char) (cs ov : Nat) :
    ∀ (pre : List (Int × Int)) (s : Int) (a b : Int × Int) post,
      spansChained t cs ov s (pre ++ a :: b :: post) →
      b.1 = a.2 - (ov : Int) ∧ a.2 < (t.length : Int) := by
  intro pre
  induction pre with
  | nil =>
    intro s a b post h
    obtain ⟨ha1, hs, ha2, h'⟩ := h
    obtain ⟨hb1, hs', _, _⟩ := h'
    rw [nextStart] at hb1 hs'
    by_cases hel : endOf t cs s < (t.length : Int)
    · rw [if_pos hel] at hb1
      exact ⟨by rw [hb1, ha2], by rw [ha2]; exact hel⟩
    · rw [if_neg hel] at hs'
      exact absurd hs' hel
  | cons q pre ih =>
    intro s a b post h
    obtain ⟨_, _, _, h'⟩ := h
    exact ih _ a b post h'

/-- Counterexample to C3 as stated: (i) on 11 blanks with `chunk_size = 10`,
`overlap = 2` the result is `[]` — fewer than 2 chunks; (ii) on `abT`
(`"abcd  efgh"`, `chunk_size = 4`, `overlap = 2`) the consecutive non-final
chunks `"cd"` and `"ef"` share no characters: the trailing 2 characters of
`"cd"` do not reappear at the head of `"ef"`, because stripping removed the
blanks that made up the raw overlap. -/
theorem chunk_overlap_cex :
    (10 < ws11.length ∧ (2 : Nat) < 10
        ∧ chunk_text ws11 10 2 (ws11.length + 1) = some [])
      ∧ (4 < abT.length ∧ (2 : Nat) < 4
        ∧ chunk_text abT 4 2 (abT.length + 1)
            = some ["abcd".data, "cd".data, "ef".data, "efgh".data]
        ∧ "ef".data.take 2 ≠ "cd".data.drop ("cd".data.length - 2)) := by
  decide

/-- C3 (corrected): for `len(text) > chunk_size` and
`overlap < min(chunk_size, chunk_size/2 + 3)` the scan terminates after
visiting at least two windows; every window but the last ends below
`len(text)` and the next window starts exactly `overlap` characters before
the previous window's end (so consecutive *raw windows* share exactly
`overlap` characters of the source text); the emitted chunks are exactly
the windows sliced from the text, whitespace-stripped, with empty results
dropped — hence the emitted chunks may number fewer than 2 and consecutive
emitted chunks may share fewer than `overlap` characters. -/
theorem chunk_windows_overlap (t : List Char) (cs ov : Nat)
    (hlen : cs < t.length) (hov : ov < min cs (cs / 2 + 3)) :
    ∃ sp, spanLoop t cs ov (t.length + 1) 0 [] = some sp
      ∧ 2 ≤ sp.length
      ∧ spansChained t cs ov 0 sp
      ∧ (∀ pre a b post, sp = pre ++ a :: b :: post →
            b.1 = a.2 - (ov : Int) ∧ a.2 < (t.length : Int))
      ∧ chunk_text t cs ov (t.length + 1) = some (emitChunks t sp) := by
  have hcs1 : 1 ≤ cs := by omega
  have hnl : ¬ t.length ≤ cs := by omega
  obtain ⟨r, hr⟩ := chunk_text_total t hov
  rw [chunk_text, if_neg hnl, chunkLoop_eq_spanLoop] at hr
  obtain ⟨sp, hsp, hrsp⟩ := Option.map_eq_some'.mp hr
  refine ⟨sp, hsp, ?_, ?_, ?_, ?_⟩
  · -- at least two windows
    have hg0 : ¬ (t.length : Int) ≤ 0 := by omega
    have he0 : endOf t cs 0 ≤ (cs : Int) := by
      have := endOf_upper t cs 0 le_rfl
      omega
    have hs1 : nextStart t cs ov 0 < (t.length : Int) := by
      rw [nextStart]
      split <;> omega
    have hg1 : ¬ (t.length : Int) ≤ nextStart t cs ov 0 := not_le.mpr hs1
    obtain ⟨m, hm⟩ : ∃ m, t.length = m + 1 := ⟨t.length - 1, by omega⟩
    rw [spanLoop, if_neg hg0, List.nil_append] at hsp
    rw [show spanLoop t cs ov t.length = spanLoop t cs ov (m + 1) from by rw [hm],
      spanLoop, if_neg hg1] at hsp
    obtain ⟨tail, htl, _⟩ := spanLoop_chained t cs ov _ _ _ _ hsp
    rw [htl]
    simp
  · -- the chain
    obtain ⟨tail, htl, hch⟩ := spanLoop_chained t cs ov _ _ _ _ hsp
    rw [List.nil_append] at htl
    rw [htl]
    exact hch
  · -- adjacency
    intro pre a b post hdec
    obtain ⟨tail, htl, hch⟩ := spanLoop_chained t cs ov _ _ _ _ hsp
    rw [List.nil_append] at htl
    exact spansChained_adjacent t cs ov pre 0 a b post (by rw [← hdec, htl]; exact hch)
  · rw [chunk_text, if_neg hnl, chunkLoop_eq_spanLoop, hsp, Option.map_some',
      List.nil_append]

/-- Witness for the corrected C3 at `abT`, `chunk_size = 4`, `overlap = 2`. -/
theorem chunk_windows_overlap_witness :
    (4 < abT.length ∧ 2 < min 4 (4 / 2 + 3))
      ∧ ∃ sp, spanLoop abT 4 2 (abT.length + 1) 0 [] = some sp
          ∧ 2 ≤ sp.length
          ∧ spansChained abT 4 2 0 sp
          ∧ (∀ pre a b post, sp = pre ++ a :: b :: post →
                b.1 = a.2 - ((2 : Nat) : Int) ∧ a.2 < (abT.length : Int))
          ∧ chunk_text abT 4 2 (abT.length + 1) = some (emitChunks abT sp) :=
  ⟨⟨by decide, by decide⟩, chunk_windows_overlap abT 4 2 (by decide) (by decide)⟩

/-! ### `RAGService` (rag_service.py) -/

/-- Metadata values stored with chunks (strings, integers, text previews). -/
inductive MetaVal where
  | s (v : String)
  | n (v : Nat)
  | t (v : List Char)
deriving DecidableEq

/-- A Python metadata dictionary, as an insertion-ordered association
list; `pyGet` returns the latest binding, mirroring `dict.update`. -/
abbrev Metadata := List (String × MetaVal)

/-- `dict.get(k)`: the most recent binding of `k`, if any. -/
def pyGet (d : Metadata) (k : String) : Option MetaVal :=
  ((List.reverse d).find? (fun p => p.1 == k)).map (fun p => p.2)

/-- `os.path.basename`: the part after the last `'/'`. -/
def basename (s : String) : String :=
  ⟨((s.data.reverse.takeWhile (fun c => !(c == '/'))).reverse)⟩

/-- One record of a ChromaDB collection: id, embedding, document text and
metadata, as passed to `collection.add`. -/
structure Record where
  id : String
  embedding : List ℚ
  document : List Char
  metadata : Metadata
deriving DecidableEq

/-- The three collections created by `RAGService._init_collections`. -/
structure RAGState where
  rfq_collection : List Record
  bids_collection : List Record
  conflicts_collection : List Record
deriving DecidableEq

/-- The `if/elif` dispatch on `document_type` shared by `index_document`
(lines 138-149) and `search_similar` (lines 205-216): `rfq`, `bid` and
`conflict` select a collection, anything else falls through to the
unknown-type failure. -/
def collectionFor (st : RAGState) (document_type : String) :
    Option (List Record) :=
  if document_type = "rfq" then some st.rfq_collection
  else if document_type = "bid" then some st.bids_collection
  else if document_type = "conflict" then some st.conflicts_collection
  else none

/-- One formatted search result (lines 239-245):
`similarity_score = 1 - distance`. -/
structure FormattedResult where
  id : String
  document : List Char
  metadata : Metadata
  distance : ℚ
  similarity_score : ℚ
deriving DecidableEq

/-- The raw dictionary ChromaDB's `collection.query` returns: one inner
list per query embedding. -/
structure QueryRaw where
  ids : List (List String)
  documents : List (List (List Char))
  metadatas : List (List Metadata)
  distances : List (List ℚ)

/-- The dictionary returned by `search_similar`, with exactly the keys the
source puts in each branch (absent keys are `none`). -/
structure SearchResponse where
  success : Bool
  error : Option String := none
  results : Option (List FormattedResult) := none
  message : Option String := none
  query : Option (List Char) := none
  total_found : Option Nat := none
deriving DecidableEq

/-- The result-formatting loop of `search_similar` (lines 236-245). -/
def formatResults (res : QueryRaw) : List FormattedResult :=
  if res.ids ≠ [] then
    (List.range (res.ids.getD 0 []).length).map (fun i =>
      { id := (res.ids.getD 0 []).getD i ""
        document := (res.documents.getD 0 []).getD i []
        metadata := (res.metadatas.getD 0 []).getD i ([] : List (String × MetaVal))
        distance := (res.distances.getD 0 []).getD i 0
        similarity_score := 1 - (res.distances.getD 0 []).getD i 0 })
  else []

/-- `RAGService.search_similar(query, document_type, n_results)`
(lines 190-252).  The sentence-embedding model and ChromaDB's
nearest-neighbour search are external floating-point components; they
enter as the oracles `embed` and `queryColl` (the source calls
`collection.query` with `min(n_results, collection.count())`). -/
def search_similar (st : RAGState)
    (embed : List (List Char) → List (List ℚ))
    (queryColl : List Record → List ℚ → Nat → QueryRaw)
    (query : List Char) (document_type : String) (n_results : Nat) :
    SearchResponse :=
  match collectionFor st document_type with
  | none =>
      { success := false
        error := some ("Unknown document type: " ++ document_type) }
  | some coll =>
      if coll.length = 0 then
        { success := true
          results := some []
          message := some ("No documents indexed in " ++ document_type
            ++ " collection") }
      else
        { success := true
          query := some query
          results := some (formatResults
            (queryColl coll ((embed [query]).getD 0 []) (min n_results coll.length)))
          total_found := some (formatResults
            (queryColl coll ((embed [query]).getD 0 []) (min n_results coll.length))).length }

/-- Python exceptions a call in this module can raise. -/
inductive PyErr where
  | typeError (msg : String)
deriving DecidableEq

/-- The result dictionary built by `DocumentProcessor.process_file`
(document_processor.py lines 18-54): each branch returns `success` and
`filename`, plus `content`/`metadata`/`word_count`/`char_count` on success
or `error` on failure.  No branch produces a key named `text`. -/
structure ProcResult where
  success : Bool
  filename : String
  content : Option (List Char) := none
  error : Option String := none
  word_count : Option Nat := none
  char_count : Option Nat := none

/-- Shallow embedding of the call `self.doc_processor.process_file(file_path)`
at rag_service.py line 114: `DocumentProcessor.process_file` is declared
with two required positional parameters `(file_bytes, filename)` and this
call supplies only one, so under Python call semantics it raises
`TypeError` before the callee body runs. -/
def process_file_one_arg (_file_path : String) : Except PyErr ProcResult :=
  .error (.typeError
    "process_file() missing 1 required positional argument: filename")

/-- `doc_data.get('text')` as executed at rag_service.py line 116: the
dictionaries `process_file` builds never carry a `text` key (the extracted
text is under `content`), so this lookup returns `None` for every possible
`doc_data`. -/
def procGetText (_doc_data : ProcResult) : Option (List Char) := none

/-- The dictionary `index_document` returns (error branches carry
`success: False` and `error`; the success branch carries the indexing
statistics). -/
inductive IndexOutcome where
  | failure (error : String)
  | success (document_type : String) (chunks_indexed : Nat)
      (embedding_dim : Nat) (doc_id : String) (metadata : Metadata)
deriving DecidableEq

/-- `collection.add(ids, embeddings, documents, metadatas)`: zip the four
equal-length sequences into records. -/
def zipRecords : List String → List (List ℚ) → List (List Char) →
    List Metadata → List Record
  | i :: is, e :: es, d :: ds, m :: ms => ⟨i, e, d, m⟩ :: zipRecords is es ds ms
  | _, _, _, _ => []

/-- Append freshly added records to the collection selected by
`document_type` (ChromaDB stores them; duplicate-id policy is the
store's). -/
def addTo (st : RAGState) (document_type : String) (records : List Record) :
    RAGState :=
  if document_type = "rfq" then
    { st with rfq_collection := st.rfq_collection ++ records }
  else if document_type = "bid" then
    { st with bids_collection := st.bids_collection ++ records }
  else if document_type = "conflict" then
    { st with conflicts_collection := st.conflicts_collection ++ records }
  else st

/-- `RAGService.index_document(file_path, document_type, metadata)`
(rag_service.py lines 98-188).  The first statement of the body calls
`process_file` with one argument (see `process_file_one_arg`) and
therefore raises `TypeError`; the rest of the body — the `'text'` lookup
(which would also fail: extraction stores the text under `'content'`),
chunking with the fixed defaults `chunk_size=1000, overlap=200`, batch
embedding, the type dispatch, id generation `{doc_id}_chunk_{i}`,
per-chunk metadata and `collection.add` — is embedded faithfully below the
raising call but is unreachable.  `embed` is the sentence-embedding
oracle, `now` stands for `datetime.now().isoformat()` and `embedding_dim`
for `self.embedding_dim`.  The chunking fuel `len+1` is sufficient by
`chunk_text_total` since `200 < min 1000 (1000/2 + 3)`. -/
def index_document (st : RAGState)
    (embed : List (List Char) → List (List ℚ))
    (file_path : String) (document_type : String) (metadata : Metadata)
    (now : String) (embedding_dim : Nat) :
    Except PyErr (IndexOutcome × RAGState) :=
  match process_file_one_arg file_path with
  | .error e => .error e
  | .ok doc_data =>
    match procGetText doc_data with
    | none => .ok (.failure "Failed to extract text from document", st)
    | some text =>
      match chunk_text text 1000 200 (text.length + 1) with
      | none => .ok (.failure "No chunks generated from document", st)
      | some chunks =>
        if chunks = [] then
          .ok (.failure "No chunks generated from document", st)
        else
          match collectionFor st document_type with
          | none =>
              .ok (.failure ("Unknown document type: " ++ document_type), st)
          | some _ =>
            let base_metadata : Metadata := metadata ++
              ([("source_file", .s (basename file_path)),
                ("document_type", .s document_type),
                ("indexed_at", .s now),
                ("file_type", .s "unknown"),
                ("total_chunks", .n chunks.length)] : Metadata)
            let doc_id := match pyGet base_metadata "doc_id" with
              | some (.s v) => v
              | _ => basename file_path
            let ids := (List.range chunks.length).map
              (fun i => doc_id ++ "_chunk_" ++ toString i)
            let metadatas := chunks.enum.map (fun p =>
              base_metadata ++
                ([("chunk_index", .n p.1),
                  ("chunk_text_preview", .t (p.2.take 100))] : Metadata))
            .ok (.success document_type chunks.length embedding_dim doc_id
                  base_metadata,
              addTo st document_type
                (zipRecords ids (embed chunks) chunks metadatas))

/-! ### `RAGService.detect_semantic_conflicts` (rag_service.py 302-342) -/

/-- One detected conflict (lines 332-340). -/
structure ConflictFinding where
  doc1_index : Nat
  doc2_index : Nat
  doc1_preview : List Char
  doc2_preview : List Char
  similarity_score : ℚ
  conflict_type : String
  severity : String
deriving DecidableEq

/-- The conflict dictionary appended at rag_service.py lines 332-340 for
the pair `(i, j)`. -/
def mkConflict (documents : List (List Char)) (sim : Nat → Nat → ℚ)
    (i j : Nat) : ConflictFinding :=
  { doc1_index := i
    doc2_index := j
    doc1_preview := (documents.getD i []).take 200
    doc2_preview := (documents.getD j []).take 200
    similarity_score := sim i j
    conflict_type := "semantic_similarity"
    severity := if (0.95 : ℚ) < sim i j then "high" else "medium" }

/-- The inner loop `for j in range(i + 1, len(documents))` with the strict
threshold test `similarity > threshold`. -/
def conflictRow (documents : List (List Char)) (sim : Nat → Nat → ℚ)
    (threshold : ℚ) (i : Nat) : List ConflictFinding :=
  (List.range' (i + 1) (documents.length - (i + 1))).filterMap (fun j =>
    if threshold < sim i j then some (mkConflict documents sim i j) else none)

/-- `RAGService.detect_semantic_conflicts(documents, threshold)`.  The
embeddings and the numpy cosine similarity are external floating-point
computation; they enter as the oracle `sim i j` (the cosine similarity of
documents `i` and `j`).  The pair enumeration (`i < j`), the strict
threshold test, the previews (`[:200]`), and the severity rule
(`'high' if similarity > 0.95 else 'medium'`) are the source's. -/
def detect_semantic_conflicts (documents : List (List Char))
    (sim : Nat → Nat → ℚ) (threshold : ℚ) : List ConflictFinding :=
  if documents.length < 2 then []
  else ((List.range documents.length).map
    (conflictRow documents sim threshold)).flatten

/-! ### Counting lemmas for the pairwise conflict scan -/

lemma countP_flatten {α : Type} (p : α → Bool) :
    ∀ L : List (List α), L.flatten.countP p = (L.map (fun l => l.countP p)).sum := by
  intro L
  induction L with
  | nil => simp
  | cons l L ih => simp [List.countP_append, ih]

lemma countP_filterMap_eq {α β : Type} (g : α → Option β) (p : β → Bool) :
    ∀ l : List α, (l.filterMap g).countP p
      = l.countP (fun a => ((g a).map p).getD false) := by
  intro l
  induction l with
  | nil => rfl
  | cons a l ih =>
    rcases hga : g a with _ | b <;>
      simp [List.filterMap_cons, hga, ih, List.countP_cons]

lemma countP_pair_single {q : Nat → Bool} (j0 : Nat) :
    ∀ l : List Nat, l.Nodup →
      l.countP (fun j => (j == j0) && q j)
        = if j0 ∈ l ∧ q j0 = true then 1 else 0 := by
  intro l
  induction l with
  | nil => simp
  | cons a l ih =>
    intro hnd
    rw [List.countP_cons, ih (List.nodup_cons.mp hnd).2]
    by_cases ha : a = j0
    · subst ha
      have hnm : a ∉ l := (List.nodup_cons.mp hnd).1
      by_cases hq : q a = true
      · simp [hnm, hq]
      · simp [hnm, hq]
    · have hfa : ((a == j0) && q a) = false := by
        simp [ha]
      rw [hfa]
      split_ifs with h1 h2 <;> simp_all [List.mem_cons]

lemma sum_map_single {f : Nat → Nat} {i0 v : Nat}
    (hf0 : ∀ i, i ≠ i0 → f i = 0) (hfi : f i0 = v) :
    ∀ l : List Nat, l.Nodup → (l.map f).sum = if i0 ∈ l then v else 0 := by
  intro l
  induction l with
  | nil => simp
  | cons a l ih =>
    intro hnd
    rw [List.map_cons, List.sum_cons, ih (List.nodup_cons.mp hnd).2]
    by_cases ha : a = i0
    · subst ha
      have hnm : a ∉ l := (List.nodup_cons.mp hnd).1
      simp [hnm, hfi]
    · rw [hf0 a ha]
      split_ifs with h1 h2 <;> simp_all [List.mem_cons]

/-- C5: with at least 2 documents, the conflict scan reports exactly one
finding for each pair `i < j` whose similarity strictly exceeds the
threshold and none for any other pair; every finding carries the source's
similarity and the severity rule `'high' if score > 0.95 else 'medium'`. -/
theorem detect_conflicts_exact_pairs (documents : List (List Char))
    (sim : Nat → Nat → ℚ) (threshold : ℚ) (h2 : 2 ≤ documents.length) :
    (∀ i0 j0 : Nat,
      (detect_semantic_conflicts documents sim threshold).countP
          (fun c => c.doc1_index == i0 && c.doc2_index == j0)
        = if i0 < j0 ∧ j0 < documents.length ∧ threshold < sim i0 j0
          then 1 else 0)
    ∧ ∀ c ∈ detect_semantic_conflicts documents sim threshold,
        c.severity = (if (0.95 : ℚ) < c.similarity_score then "high" else "medium")
        ∧ c.similarity_score = sim c.doc1_index c.doc2_index
        ∧ c.doc1_index < c.doc2_index
        ∧ c.doc2_index < documents.length := by
  have hn2 : ¬ documents.length < 2 := by omega
  constructor
  · intro i0 j0
    have hrow0 : ∀ i, i ≠ i0 →
        (conflictRow documents sim threshold i).countP
          (fun c => c.doc1_index == i0 && c.doc2_index == j0) = 0 := by
      intro i hi
      rw [List.countP_eq_zero]
      intro c hc
      rw [conflictRow] at hc
      obtain ⟨j, hj, hcj⟩ := List.mem_filterMap.mp hc
      by_cases hth : threshold < sim i j
      · rw [if_pos hth] at hcj
        injection hcj with hcj
        subst hcj
        simp [mkConflict, hi]
      · rw [if_neg hth] at hcj
        exact absurd hcj (by simp)
    have hrowi : (conflictRow documents sim threshold i0).countP
          (fun c => c.doc1_index == i0 && c.doc2_index == j0)
        = if i0 < j0 ∧ j0 < documents.length ∧ threshold < sim i0 j0
          then 1 else 0 := by
      rw [conflictRow, countP_filterMap_eq]
      have hcong : (List.range' (i0 + 1) (documents.length - (i0 + 1))).countP
            (fun j => (((if threshold < sim i0 j
                then some (mkConflict documents sim i0 j) else none).map
              (fun c => c.doc1_index == i0 && c.doc2_index == j0)).getD false))
          = (List.range' (i0 + 1) (documents.length - (i0 + 1))).countP
            (fun j => (j == j0) && decide (threshold < sim i0 j)) := by
        apply List.countP_congr
        intro j hj
        by_cases hth : threshold < sim i0 j
        · simp [hth, mkConflict]
        · simp [hth]
      rw [hcong, countP_pair_single j0 _ (List.nodup_range' ..)]
      have hiff : (j0 ∈ List.range' (i0 + 1) (documents.length - (i0 + 1))
            ∧ decide (threshold < sim i0 j0) = true)
          ↔ (i0 < j0 ∧ j0 < documents.length ∧ threshold < sim i0 j0) := by
        rw [List.mem_range'_1, decide_eq_true_iff]
        constructor
        · rintro ⟨⟨ha, hb⟩, hc⟩
          exact ⟨by omega, by omega, hc⟩
        · rintro ⟨ha, hb, hc⟩
          exact ⟨⟨by omega, by omega⟩, hc⟩
      rw [if_congr hiff rfl rfl]
    rw [detect_semantic_conflicts, if_neg hn2, countP_flatten, List.map_map]
    have hsum := sum_map_single hrow0 hrowi (List.range documents.length)
      (List.nodup_range _)
    rw [show ((fun l => l.countP
          (fun c => c.doc1_index == i0 && c.doc2_index == j0))
            ∘ conflictRow documents sim threshold)
        = (fun i => (conflictRow documents sim threshold i).countP
            (fun c => c.doc1_index == i0 && c.doc2_index == j0)) from rfl,
      hsum]
    simp only [List.mem_range]
    by_cases hC : i0 < j0 ∧ j0 < documents.length ∧ threshold < sim i0 j0
    · obtain ⟨ha, hb, -⟩ := hC
      rw [if_pos (by omega : i0 < documents.length)]
    · rw [if_neg hC]
      by_cases hin : i0 < documents.length
      · rw [if_pos hin]
      · rw [if_neg hin]
  · intro c hc
    rw [detect_semantic_conflicts, if_neg hn2] at hc
    obtain ⟨blk, hblk, hcblk⟩ := List.mem_flatten.mp hc
    obtain ⟨i, hi, rfl⟩ := List.mem_map.mp hblk
    rw [conflictRow] at hcblk
    obtain ⟨j, hj, hcj⟩ := List.mem_filterMap.mp hcblk
    rw [List.mem_range'_1] at hj
    rw [List.mem_range] at hi
    by_cases hth : threshold < sim i j
    · rw [if_pos hth] at hcj
      injection hcj with hcj
      subst hcj
      exact ⟨rfl, rfl, (by omega : i < j), (by omega : j < documents.length)⟩
    · rw [if_neg hth] at hcj
      exact absurd hcj (by simp)

/-- C8: fewer than two documents yield the empty list of findings (the
guard at rag_service.py lines 315-316), with no error possible. -/
theorem detect_conflicts_fewer_than_two (documents : List (List Char))
    (sim : Nat → Nat → ℚ) (threshold : ℚ) (h : documents.length < 2) :
    detect_semantic_conflicts documents sim threshold = [] := by
  rw [detect_semantic_conflicts, if_pos h]

/-- Witness for C8 at a single-document list. -/
theorem detect_conflicts_fewer_than_two_witness :
    ([['x']] : List (List Char)).length < 2
      ∧ detect_semantic_conflicts [['x']] (fun _ _ => 0) (85 / 100) = [] :=
  ⟨by decide, detect_conflicts_fewer_than_two [['x']] (fun _ _ => 0) (85 / 100)
    (by decide)⟩

/-- Concrete documents for the C5 witness. -/
def docsW : List (List Char) :=
  ["budget ten million".data, "total ten million".data, "asphalt paving".data]

/-- Concrete similarity oracle for the C5 witness. -/
def simW : Nat → Nat → ℚ :=
  fun i j => if i = 0 ∧ j = 1 then 96 / 100 else 1 / 10

/-- Witness for C5 at three documents, threshold `0.85`. -/
theorem detect_conflicts_exact_pairs_witness :
    2 ≤ docsW.length
      ∧ ((∀ i0 j0 : Nat,
          (detect_semantic_conflicts docsW simW (85 / 100)).countP
              (fun c => c.doc1_index == i0 && c.doc2_index == j0)
            = if i0 < j0 ∧ j0 < docsW.length ∧ (85 / 100 : ℚ) < simW i0 j0
              then 1 else 0)
        ∧ ∀ c ∈ detect_semantic_conflicts docsW simW (85 / 100),
            c.severity
                = (if (0.95 : ℚ) < c.similarity_score then "high" else "medium")
              ∧ c.similarity_score = simW c.doc1_index c.doc2_index
              ∧ c.doc1_index < c.doc2_index
              ∧ c.doc2_index < docsW.length) :=
  ⟨by decide, detect_conflicts_exact_pairs docsW simW (85 / 100) (by decide)⟩

/-- C9: for a known document type whose collection holds zero records,
`search_similar` returns success with an empty result list and an
informational message (rag_service.py lines 219-224), not an error. -/
theorem search_similar_empty_collection (st : RAGState)
    (embed : List (List Char) → List (List ℚ))
    (queryColl : List Record → List ℚ → Nat → QueryRaw)
    (query : List Char) (document_type : String) (n_results : Nat)
    (h : (document_type = "rfq" ∧ st.rfq_collection = [])
        ∨ (document_type = "bid" ∧ st.bids_collection = [])
        ∨ (document_type = "conflict" ∧ st.conflicts_collection = [])) :
    search_similar st embed queryColl query document_type n_results
      = { success := true
          results := some []
          message := some ("No documents indexed in " ++ document_type
            ++ " collection") } := by
  have hcf : collectionFor st document_type = some [] := by
    rcases h with ⟨hd, hc⟩ | ⟨hd, hc⟩ | ⟨hd, hc⟩ <;> subst hd <;>
      simp [collectionFor, hc]
  simp only [search_similar, hcf, List.length_nil, if_true]

/-- Witness for C9: the freshly initialised store and type `"rfq"`. -/
theorem search_similar_empty_collection_witness :
    (("rfq" = "rfq" ∧ (⟨[], [], []⟩ : RAGState).rfq_collection = [])
        ∨ ("rfq" = "bid" ∧ (⟨[], [], []⟩ : RAGState).bids_collection = [])
        ∨ ("rfq" = "conflict"
            ∧ (⟨[], [], []⟩ : RAGState).conflicts_collection = []))
      ∧ search_similar ⟨[], [], []⟩ (fun _ => []) (fun _ _ _ => ⟨[], [], [], []⟩)
          "query".data "rfq" 5
        = { success := true
            results := some []
            message := some "No documents indexed in rfq collection" } :=
  ⟨Or.inl ⟨rfl, rfl⟩,
    search_similar_empty_collection ⟨[], [], []⟩ (fun _ => [])
      (fun _ _ _ => ⟨[], [], [], []⟩) "query".data "rfq" 5 (Or.inl ⟨rfl, rfl⟩)⟩

/-- C10 (the `index_document` half is broken): `search_similar` with the
unknown type `"invoice"` returns the failure dictionary naming the type
and touches no collection, exactly as claimed; `index_document` with the
same unknown type never reaches its type dispatch — it raises `TypeError`
at the one-argument `process_file` call — so it fails by exception rather
than by the claimed failure result (no collection is modified either
way). -/
theorem unknown_document_type_behaviour :
    (∀ (st : RAGState) (embed : List (List Char) → List (List ℚ))
        (queryColl : List Record → List ℚ → Nat → QueryRaw)
        (query : List Char) (n_results : Nat),
        search_similar st embed queryColl query "invoice" n_results
          = { success := false
              error := some "Unknown document type: invoice" })
      ∧ (∀ (st : RAGState) (embed : List (List Char) → List (List ℚ))
          (file_path : String) (metadata : Metadata) (now : String)
          (embedding_dim : Nat),
          index_document st embed file_path "invoice" metadata now embedding_dim
            = .error (.typeError
                "process_file() missing 1 required positional argument: filename")) :=
  ⟨fun _ _ _ _ _ => rfl, fun _ _ _ _ _ _ => rfl⟩

/-- C1 (the code contradicts it): every call of `index_document` raises
`TypeError` at its first statement — `process_file(file_path)` passes one
argument where `process_file(self, file_bytes, filename)` requires two —
so the claimed extraction → chunking → embedding → add pipeline never
runs and no success report is ever produced.  (Had the call succeeded,
the body would still fail: it reads `doc_data.get('text')` while
`process_file` stores the extracted text under `'content'`.) -/
theorem index_document_always_raises (st : RAGState)
    (embed : List (List Char) → List (List ℚ))
    (file_path document_type : String) (metadata : Metadata) (now : String)
    (embedding_dim : Nat) :
    index_document st embed file_path document_type metadata now embedding_dim
      = .error (.typeError
          "process_file() missing 1 required positional argument: filename") :=
  rfl

/-- `True` exactly on the non-raising, non-failing outcomes of an
`Except` computation. -/
def exceptIsOk {ε α : Type} : Except ε α → Bool
  | .ok _ => true
  | .error _ => false

/-- C7 (the intended branch is unreachable): indexing the empty document
`empty.txt` does not produce the claimed error *result* — the call raises
`TypeError` before the emptiness check at rag_service.py line 116 — and
`index_document` never returns a new state at all, so no collection is
ever modified by it (the all-or-nothing half of the claim holds
vacuously). -/
theorem index_document_empty_doc_unchanged :
    index_document ⟨[], [], []⟩ (fun _ => []) "empty.txt" "rfq" [] "" 384
        = .error (.typeError
            "process_file() missing 1 required positional argument: filename")
      ∧ ∀ (st : RAGState) (embed : List (List Char) → List (List ℚ))
          (metadata : Metadata) (now : String) (dim : Nat),
          exceptIsOk (index_document st embed "empty.txt" "rfq" metadata now dim)
            = false :=
  ⟨rfl, fun _ _ _ _ _ => rfl⟩

end BidForge
